import Mathlib

/-!
Shallow embedding of the three design-pattern demos
(iterator.cpp, observer.cpp, visitor.cpp) and proofs of the
specification's testable properties about them.
-/

/-! ## Iterator demo (src/iterator/iterator.cpp) -/

/-- The growable sequence container `CustomCollection<T>`: its only data
member is `std::vector<T> items`. -/
structure CustomCollection (T : Type) where
  items : List T

namespace CustomCollection

/-- A freshly constructed `CustomCollection` holds no items. -/
def new (T : Type) : CustomCollection T := ⟨[]⟩

/-- `add(item)` does `items.push_back(item)`. -/
def add (c : CustomCollection T) (item : T) : CustomCollection T :=
  ⟨c.items ++ [item]⟩

/-- `size()` returns `items.size()` (as a C++ `int`). -/
def size (c : CustomCollection T) : Int :=
  (c.items.length : Int)

/-- `get(index)` returns `items[index]` when `0 <= index < items.size()`
and otherwise throws `std::out_of_range("Index out of range")`. -/
def get (c : CustomCollection T) (index : Int) : Except String T :=
  if h : 0 ≤ index ∧ index < c.size then
    .ok (c.items.get ⟨index.toNat, by
      have h1 := h.1; have h2 := h.2
      simp only [size] at h2
      omega⟩)
  else
    .error "Index out of range"

end CustomCollection

/-- The cursor `CustomCollection<T>::ForwardIterator`: besides the
reference to its collection (passed explicitly to each operation below)
it holds the single `int currentIndex` member. -/
structure ForwardIterator where
  currentIndex : Int

namespace ForwardIterator

/-- `hasNext()` returns `currentIndex < collection.size()`. -/
def hasNext (coll : CustomCollection T) (it : ForwardIterator) : Bool :=
  it.currentIndex < coll.size

/-- `next()` throws `std::out_of_range("No more elements")` when
`hasNext()` is false; otherwise it evaluates `collection.get(currentIndex++)`:
the index is incremented and `get` is applied to its old value. The
returned pair carries the call's outcome and the cursor's state after
the call. -/
def next (coll : CustomCollection T) (it : ForwardIterator) :
    Except String T × ForwardIterator :=
  if hasNext coll it then
    (coll.get it.currentIndex, ⟨it.currentIndex + 1⟩)
  else
    (.error "No more elements", it)

end ForwardIterator

/-- `createIterator()` returns a fresh `ForwardIterator(*this)`, whose
list-initialization sets `currentIndex` to 0. -/
def CustomCollection.createIterator (_c : CustomCollection T) : ForwardIterator :=
  ⟨0⟩

/-- Builds a collection by appending the given elements, in order, to a
freshly constructed collection. -/
def buildColl (l : List T) : CustomCollection T :=
  l.foldl CustomCollection.add (CustomCollection.new T)

/-- The driver loop `while(iterator->hasNext()) ... iterator->next() ...`,
run for at most `fuel` repetitions: it collects the yielded elements in
order and returns the cursor's final state. -/
def runLoop (coll : CustomCollection T) (it : ForwardIterator) :
    Nat → List T × ForwardIterator
  | 0 => ([], it)
  | fuel + 1 =>
    if ForwardIterator.hasNext coll it then
      match ForwardIterator.next coll it with
      | (Except.ok v, it') =>
        let r := runLoop coll it' fuel
        (v :: r.1, r.2)
      | (Except.error _, it') => ([], it')
    else ([], it)

/-- The cursor states reachable from `createIterator` by any number of
`next` calls (`hasNext` does not change the cursor's state). -/
inductive ReachableIter (coll : CustomCollection T) : ForwardIterator → Prop where
  | created : ReachableIter coll (coll.createIterator)
  | stepped : ∀ it, ReachableIter coll it →
      ReachableIter coll (ForwardIterator.next coll it).2

/-- A heap of cursor objects over one collection: `createIterator` adds a
new cursor object, and `hasNext`/`next` on one cursor touch only that
cursor's `currentIndex` member. Cursors are addressed by their position
in `cursors`. -/
structure IterWorld (T : Type) where
  coll : CustomCollection T
  cursors : List ForwardIterator

namespace IterWorld

/-- Calling `createIterator()` on the collection allocates one more
cursor, with `currentIndex = 0`, leaving existing cursors alone. -/
def createIteratorW (w : IterWorld T) : IterWorld T :=
  ⟨w.coll, w.cursors ++ [w.coll.createIterator]⟩

/-- Calling `hasNext()` on cursor `i`: reads `currentIndex` and the
collection's size, mutating nothing. -/
def hasNextW (w : IterWorld T) (i : Nat) : Option Bool × IterWorld T :=
  match w.cursors[i]? with
  | some it => (some (ForwardIterator.hasNext w.coll it), w)
  | none => (none, w)

/-- Calling `next()` on cursor `i`: the only member written is that
cursor's own `currentIndex`. -/
def nextW (w : IterWorld T) (i : Nat) : Option (Except String T) × IterWorld T :=
  match w.cursors[i]? with
  | some it =>
    let r := ForwardIterator.next w.coll it
    (some r.1, ⟨w.coll, w.cursors.set i r.2⟩)
  | none => (none, w)

end IterWorld

/-! ## Observer demo (src/observer/observer.cpp) -/

/-- The data members of `ConcreteSubject`: the integer `state` and the
`std::vector<Observer*> observers`. Observer pointers are modelled as
natural-number identities. -/
structure ConcreteSubject where
  state : Int
  observers : List Nat

/-- The dynamic type of the `Subject*` handed to `Observer::update`: a
pointer to an actual `ConcreteSubject`, or a pointer to some other
`Subject` subclass (for which `dynamic_cast<ConcreteSubject*>` yields
null). -/
inductive SubjectRef where
  | concrete (s : ConcreteSubject)
  | other

/-- The body of `ConcreteObserver::update(Subject*)`: when the
`dynamic_cast` to `ConcreteSubject*` succeeds, it overwrites the
observer's own `state` with the subject's state and prints one trace
line; otherwise it does nothing. Returns the observer's state field
after the call together with the lines printed. -/
def ConcreteObserver.update (state : Int) (subject : SubjectRef) :
    Int × List String :=
  match subject with
  | .concrete s => (s.state, ["ConcreteObserver updated: " ++ toString s.state])
  | .other => (state, [])

/-- The object graph of the observer demo: one `ConcreteSubject` plus the
`state` field of every `ConcreteObserver`, addressed by identity. -/
structure ObsWorld where
  subject : ConcreteSubject
  observerState : Nat → Int

namespace ObsWorld

/-- `attach(observer)` does `observers.push_back(observer)`. -/
def attach (w : ObsWorld) (o : Nat) : ObsWorld :=
  { w with subject := { w.subject with
      observers := w.subject.observers ++ [o] } }

/-- `detach(observer)` runs the erase/remove_if idiom with predicate
`ptr == observer`: every matching entry is removed and the relative
order of the rest is preserved. -/
def detach (w : ObsWorld) (o : Nat) : ObsWorld :=
  { w with subject := { w.subject with
      observers := w.subject.observers.filter (fun p => p ≠ o) } }

/-- `setState(state)` stores the value; it does not notify. -/
def setState (w : ObsWorld) (s : Int) : ObsWorld :=
  { w with subject := { w.subject with state := s } }

/-- The loop body of `notify()`: for each pointer in `observers`, in
order, invoke that observer's `update` passing `this`. Returns the
resulting world and the list of observer identities whose `update` was
invoked, in invocation order. -/
def notifyLoop : ObsWorld → List Nat → ObsWorld × List Nat
  | w, [] => (w, [])
  | w, o :: rest =>
    let w' : ObsWorld := { w with
      observerState := Function.update w.observerState o
        (ConcreteObserver.update (w.observerState o) (.concrete w.subject)).1 }
    let r := notifyLoop w' rest
    (r.1, o :: r.2)

/-- `notify()` iterates over the subject's current `observers` vector. -/
def notify (w : ObsWorld) : ObsWorld × List Nat :=
  notifyLoop w w.subject.observers

end ObsWorld

/-! ## Visitor demo (src/visitor/visitor.cpp) -/

/-- A `Lion`: carries its immutable `name`. -/
structure Lion where
  name : String

/-- A `Tiger`: carries its immutable `name`. -/
structure Tiger where
  name : String

/-- An `Animal` is one of the two concrete kinds. -/
inductive Animal where
  | lion (l : Lion)
  | tiger (t : Tiger)

/-- An `AnimalVisitor`: one handler per concrete animal kind, each
producing the line it prints. -/
structure AnimalVisitor where
  visitLion : Lion → String
  visitTiger : Tiger → String

/-- `Animal::accept(visitor)` double-dispatches: each concrete class
calls `visitor.visit(*this)`, selecting the overload for its own kind. -/
def Animal.accept (a : Animal) (v : AnimalVisitor) : String :=
  match a with
  | .lion l => v.visitLion l
  | .tiger t => v.visitTiger t

/-- The `FeedingVisitor`: its `visit` overloads print
`"Feeding to Lion: <name>"` and `"Feeding to Tiger: <name>"`. -/
def FeedingVisitor : AnimalVisitor where
  visitLion := fun l => "Feeding to Lion: " ++ l.name
  visitTiger := fun t => "Feeding to Tiger: " ++ t.name

/-- The `Zoo`: owns an ordered list of animals. -/
structure Zoo where
  animals : List Animal

/-- A freshly constructed `Zoo` owns no animals. -/
def Zoo.new : Zoo := ⟨[]⟩

/-- `addAnimal(animal)` does `animals.push_back(std::move(animal))`. -/
def Zoo.addAnimal (z : Zoo) (a : Animal) : Zoo :=
  ⟨z.animals ++ [a]⟩

/-- `Zoo::accept(visitor)` prints the start marker, lets every owned
animal accept the visitor in insertion order, then prints the end
marker; the result is the list of printed lines. -/
def Zoo.accept (z : Zoo) (v : AnimalVisitor) : List String :=
  "---START---" :: (z.animals.map (fun a => Animal.accept a v) ++ ["----END----"])
lemma buildColl_items (l : List T) : (buildColl l).items = l := by
  suffices h : ∀ (acc : List T),
      (l.foldl CustomCollection.add ⟨acc⟩).items = acc ++ l by
    simpa [buildColl, CustomCollection.new] using h []
  induction l with
  | nil => intro acc; simp
  | cons x xs ih =>
    intro acc
    simp [List.foldl_cons, CustomCollection.add, ih (acc ++ [x])]

lemma get_in_range (c : CustomCollection T) (j : Nat) (h : j < c.items.length) :
    c.get (j : Int) = .ok (c.items.get ⟨j, h⟩) := by
  have hc : (0 : Int) ≤ (j : Int) ∧ (j : Int) < c.size := by
    constructor
    · exact Int.ofNat_nonneg j
    · simp only [CustomCollection.size]
      exact_mod_cast h
  simp only [CustomCollection.get, dif_pos hc]
  congr 1

lemma get_out_of_range (c : CustomCollection T) (i : Int)
    (h : i < 0 ∨ c.size ≤ i) :
    c.get i = .error "Index out of range" := by
  have hc : ¬ (0 ≤ i ∧ i < c.size) := by omega
  simp [CustomCollection.get, dif_neg hc]

lemma runLoop_spec (c : CustomCollection T) :
    ∀ (fuel : Nat) (i : Nat), i ≤ c.items.length → c.items.length - i ≤ fuel →
      runLoop c ⟨(i : Int)⟩ fuel = (c.items.drop i, ⟨(c.items.length : Int)⟩) := by
  intro fuel
  induction fuel with
  | zero =>
    intro i hle hfuel
    have : i = c.items.length := by omega
    subst this
    simp [runLoop]
  | succ fuel ih =>
    intro i hle hfuel
    by_cases hlt : i < c.items.length
    · have hnext : ForwardIterator.hasNext c ⟨(i : Int)⟩ = true := by
        simp only [ForwardIterator.hasNext, CustomCollection.size, decide_eq_true_eq]
        exact_mod_cast hlt
      have hget := get_in_range c i hlt
      have hstep : ForwardIterator.next c ⟨(i : Int)⟩ =
          (Except.ok (c.items.get ⟨i, hlt⟩), ⟨((i : Int) + 1)⟩) := by
        simp [ForwardIterator.next, hnext, hget]
      have hcast : ((i : Int) + 1) = ((i + 1 : Nat) : Int) := by push_cast; ring
      have ihr := ih (i + 1) (by omega) (by omega)
      simp only [runLoop, hnext, if_true, hstep, hcast, ihr]
      rw [Prod.mk.injEq]
      refine ⟨?_, rfl⟩
      rw [List.get_eq_getElem, List.getElem_cons_drop]
    · have hi : i = c.items.length := by omega
      subst hi
      have hnext : ForwardIterator.hasNext c ⟨(c.items.length : Int)⟩ = false := by
        simp [ForwardIterator.hasNext, CustomCollection.size]
      simp [runLoop, hnext]

lemma reachableIter_bounds {coll : CustomCollection T} {it : ForwardIterator}
    (h : ReachableIter coll it) :
    0 ≤ it.currentIndex ∧ it.currentIndex ≤ coll.size := by
  induction h with
  | created =>
    constructor
    · exact le_refl 0
    · simp only [CustomCollection.size]
      exact Int.ofNat_nonneg _
  | stepped it hr ih =>
    by_cases hn : ForwardIterator.hasNext coll it
    · have hlt : it.currentIndex < coll.size := by
        simpa [ForwardIterator.hasNext] using hn
      simp only [ForwardIterator.next, hn, if_true]
      omega
    · simp only [ForwardIterator.next, hn, if_false]
      exact ih


lemma notifyLoop_subject (l : List Nat) :
    ∀ (w : ObsWorld), (ObsWorld.notifyLoop w l).1.subject = w.subject := by
  induction l with
  | nil => intro w; rfl
  | cons o rest ih => intro w; exact ih _

lemma notifyLoop_log (l : List Nat) :
    ∀ (w : ObsWorld), (ObsWorld.notifyLoop w l).2 = l := by
  induction l with
  | nil => intro w; rfl
  | cons o rest ih =>
    intro w
    simp only [ObsWorld.notifyLoop, ih]

lemma notifyLoop_observerState (l : List Nat) :
    ∀ (w : ObsWorld) (x : Nat), (ObsWorld.notifyLoop w l).1.observerState x =
      if x ∈ l then w.subject.state else w.observerState x := by
  induction l with
  | nil => intro w x; simp [ObsWorld.notifyLoop]
  | cons o rest ih =>
    intro w x
    simp only [ObsWorld.notifyLoop, ih, List.mem_cons]
    by_cases hx : x ∈ rest
    · simp [hx]
    · by_cases hxo : x = o
      · subst hxo
        simp [hx, Function.update, ConcreteObserver.update]
      · simp [hx, hxo, Function.update]

lemma notify_observerState (w : ObsWorld) (x : Nat) :
    (ObsWorld.notify w).1.observerState x =
      if x ∈ w.subject.observers then w.subject.state else w.observerState x :=
  notifyLoop_observerState w.subject.observers w x

lemma notify_log (w : ObsWorld) : (ObsWorld.notify w).2 = w.subject.observers :=
  notifyLoop_log w.subject.observers w

/-- C1: appending the elements of `l` to a fresh collection and then
running the traversal loop (next while hasNext) with a newly created
cursor yields exactly the appended elements, in append order, and
afterwards `hasNext` returns false. -/
theorem iterator_full_traversal (T : Type) (l : List T) (fuel : Nat)
    (hfuel : l.length ≤ fuel) :
    runLoop (buildColl l) ((buildColl l).createIterator) fuel
      = (l, ⟨(l.length : Int)⟩)
    ∧ ForwardIterator.hasNext (buildColl l)
        (runLoop (buildColl l) ((buildColl l).createIterator) fuel).2 = false := by
  have hb : (buildColl l).items = l := buildColl_items l
  have h0 : ((buildColl l).createIterator) = (⟨((0 : Nat) : Int)⟩ : ForwardIterator) := rfl
  have h := runLoop_spec (buildColl l) fuel 0 (by omega) (by rw [hb]; omega)
  rw [h0, h, hb]
  refine ⟨rfl, ?_⟩
  simp [ForwardIterator.hasNext, CustomCollection.size, hb]

theorem iterator_full_traversal_witness :
    runLoop (buildColl [10, 20, 30]) ((buildColl ([10, 20, 30] : List Nat)).createIterator) 5
      = ([10, 20, 30], ⟨(3 : Int)⟩)
    ∧ ForwardIterator.hasNext (buildColl [10, 20, 30])
        (runLoop (buildColl [10, 20, 30])
          ((buildColl ([10, 20, 30] : List Nat)).createIterator) 5).2 = false :=
  iterator_full_traversal Nat [10, 20, 30] 5 (by decide)

/-- C2: on a container built by appends, `get i` fails with the
out-of-range error exactly when `i < 0` or `i ≥ size`, and for every
in-range index returns the element appended at that position. -/
theorem get_bounds_spec (T : Type) (l : List T) (i : Int) :
    ((i < 0 ∨ (buildColl l).size ≤ i) ↔
      (buildColl l).get i = .error "Index out of range")
    ∧ (∀ (j : Nat) (hj : j < l.length),
        (buildColl l).get ((j : Nat) : Int) = .ok (l.get ⟨j, hj⟩)) := by
  have hb : (buildColl l).items = l := buildColl_items l
  have hcoll : buildColl l = ⟨l⟩ := congrArg CustomCollection.mk hb
  rw [hcoll]
  constructor
  · constructor
    · exact fun h => get_out_of_range _ i h
    · intro herr
      by_contra hcon
      push_neg at hcon
      obtain ⟨h0, hlt⟩ := hcon
      have h0' : 0 ≤ i := by omega
      have hcast : ((i.toNat : Nat) : Int) = i := Int.toNat_of_nonneg h0'
      have hlt2 : i < (l.length : Int) := by
        simpa [CustomCollection.size] using hlt
      have hjlt : i.toNat < (⟨l⟩ : CustomCollection T).items.length := by
        show i.toNat < l.length
        omega
      have hok := get_in_range (⟨l⟩ : CustomCollection T) i.toNat hjlt
      rw [hcast] at hok
      rw [hok] at herr
      exact Except.noConfusion herr
  · intro j hj
    exact get_in_range (⟨l⟩ : CustomCollection T) j hj

theorem get_bounds_spec_witness :
    (buildColl ([5, 7] : List Nat)).get 2 = .error "Index out of range"
    ∧ (buildColl ([5, 7] : List Nat)).get ((1 : Nat) : Int) = .ok 7 :=
  ⟨(get_bounds_spec Nat [5, 7] 2).1.mp (by decide),
   (get_bounds_spec Nat [5, 7] 2).2 1 (by decide)⟩

/-- C3: for every reachable cursor, `hasNext` is true iff the position is
strictly below the container's size; `next` with `hasNext` false fails
with the out-of-range error and leaves the cursor unchanged; `next` with
`hasNext` true returns the element at the current position and advances
the position by exactly one. -/
theorem cursor_contract (T : Type) (coll : CustomCollection T)
    (it : ForwardIterator) (hr : ReachableIter coll it) :
    (ForwardIterator.hasNext coll it = true ↔ it.currentIndex < coll.size)
    ∧ (ForwardIterator.hasNext coll it = false →
        ForwardIterator.next coll it = (.error "No more elements", it))
    ∧ (ForwardIterator.hasNext coll it = true →
        ∃ (h : it.currentIndex.toNat < coll.items.length),
          ForwardIterator.next coll it
            = (.ok (coll.items.get ⟨it.currentIndex.toNat, h⟩),
               ⟨it.currentIndex + 1⟩)) := by
  refine ⟨by simp [ForwardIterator.hasNext], ?_, ?_⟩
  · intro hn
    simp [ForwardIterator.next, hn]
  · intro hn
    have hlt : it.currentIndex < coll.size := by
      simpa [ForwardIterator.hasNext] using hn
    have h0 : 0 ≤ it.currentIndex := (reachableIter_bounds hr).1
    have hjlt : it.currentIndex.toNat < coll.items.length := by
      simp only [CustomCollection.size] at hlt
      omega
    refine ⟨hjlt, ?_⟩
    have hcast : ((it.currentIndex.toNat : Nat) : Int) = it.currentIndex :=
      Int.toNat_of_nonneg h0
    have hok := get_in_range coll it.currentIndex.toNat hjlt
    rw [hcast] at hok
    simp [ForwardIterator.next, hn, hok]

theorem cursor_contract_witness :
    (ForwardIterator.hasNext (⟨[4, 5]⟩ : CustomCollection Nat)
        ((⟨[4, 5]⟩ : CustomCollection Nat).createIterator) = true ↔
      ((⟨[4, 5]⟩ : CustomCollection Nat).createIterator).currentIndex
        < (⟨[4, 5]⟩ : CustomCollection Nat).size)
    ∧ (ForwardIterator.hasNext (⟨[4, 5]⟩ : CustomCollection Nat)
          ((⟨[4, 5]⟩ : CustomCollection Nat).createIterator) = false →
        ForwardIterator.next (⟨[4, 5]⟩ : CustomCollection Nat)
            ((⟨[4, 5]⟩ : CustomCollection Nat).createIterator)
          = (.error "No more elements",
             (⟨[4, 5]⟩ : CustomCollection Nat).createIterator))
    ∧ (ForwardIterator.hasNext (⟨[4, 5]⟩ : CustomCollection Nat)
          ((⟨[4, 5]⟩ : CustomCollection Nat).createIterator) = true →
        ∃ (h : ((⟨[4, 5]⟩ : CustomCollection Nat).createIterator).currentIndex.toNat
            < (⟨[4, 5]⟩ : CustomCollection Nat).items.length),
          ForwardIterator.next (⟨[4, 5]⟩ : CustomCollection Nat)
              ((⟨[4, 5]⟩ : CustomCollection Nat).createIterator)
            = (.ok ((⟨[4, 5]⟩ : CustomCollection Nat).items.get
                ⟨((⟨[4, 5]⟩ : CustomCollection Nat).createIterator).currentIndex.toNat, h⟩),
               ⟨((⟨[4, 5]⟩ : CustomCollection Nat).createIterator).currentIndex + 1⟩)) :=
  cursor_contract Nat ⟨[4, 5]⟩ ((⟨[4, 5]⟩ : CustomCollection Nat).createIterator)
    ReachableIter.created

/-- C8: two cursors over the same container do not interfere: `hasNext`
on any cursor mutates nothing at all, and `next` on cursor `i` leaves
every other cursor's state unchanged. -/
theorem cursors_independent (T : Type) (w : IterWorld T) (i j : Nat)
    (hne : i ≠ j) :
    (IterWorld.hasNextW w i).2 = w
    ∧ (IterWorld.nextW w i).2.cursors[j]? = w.cursors[j]? := by
  constructor
  · cases h : w.cursors[i]? <;> simp [IterWorld.hasNextW, h]
  · cases h : w.cursors[i]? with
    | none => simp [IterWorld.nextW, h]
    | some it =>
      simp only [IterWorld.nextW, h]
      exact List.getElem?_set_ne hne

theorem cursors_independent_witness :
    (IterWorld.hasNextW (⟨⟨[1, 2]⟩, [⟨0⟩, ⟨1⟩]⟩ : IterWorld Nat) 0).2
      = (⟨⟨[1, 2]⟩, [⟨0⟩, ⟨1⟩]⟩ : IterWorld Nat)
    ∧ (IterWorld.nextW (⟨⟨[1, 2]⟩, [⟨0⟩, ⟨1⟩]⟩ : IterWorld Nat) 0).2.cursors[1]?
      = (⟨⟨[1, 2]⟩, [⟨0⟩, ⟨1⟩]⟩ : IterWorld Nat).cursors[1]? :=
  cursors_independent Nat ⟨⟨[1, 2]⟩, [⟨0⟩, ⟨1⟩]⟩ 0 1 (by decide)

/-- C9: a created cursor's position starts at 0; every reachable cursor
satisfies 0 ≤ position ≤ size; and a `next` call with `hasNext` false (a
failed call) leaves the position unchanged. -/
theorem cursor_position_invariant (T : Type) (coll : CustomCollection T)
    (it : ForwardIterator) (hr : ReachableIter coll it) :
    (coll.createIterator).currentIndex = 0
    ∧ (0 ≤ it.currentIndex ∧ it.currentIndex ≤ coll.size)
    ∧ (ForwardIterator.hasNext coll it = false →
        (ForwardIterator.next coll it).2 = it) := by
  refine ⟨rfl, reachableIter_bounds hr, ?_⟩
  intro hn
  simp [ForwardIterator.next, hn]

theorem cursor_position_invariant_witness :
    ((⟨[9]⟩ : CustomCollection Nat).createIterator).currentIndex = 0
    ∧ (0 ≤ ((⟨[9]⟩ : CustomCollection Nat).createIterator).currentIndex
        ∧ ((⟨[9]⟩ : CustomCollection Nat).createIterator).currentIndex
          ≤ (⟨[9]⟩ : CustomCollection Nat).size)
    ∧ (ForwardIterator.hasNext (⟨[9]⟩ : CustomCollection Nat)
          ((⟨[9]⟩ : CustomCollection Nat).createIterator) = false →
        (ForwardIterator.next (⟨[9]⟩ : CustomCollection Nat)
            ((⟨[9]⟩ : CustomCollection Nat).createIterator)).2
          = (⟨[9]⟩ : CustomCollection Nat).createIterator) :=
  cursor_position_invariant Nat ⟨[9]⟩
    ((⟨[9]⟩ : CustomCollection Nat).createIterator) ReachableIter.created

/-- C4: after attach(A), setState(1), notify(), observer A's mirrored
state is 1; after subsequently doing detach(A), setState(2), notify(),
A's mirrored state is still 1. -/
theorem observer_notify_then_detach (w : ObsWorld) (A : Nat) :
    ((((w.attach A).setState 1).notify).1.observerState A = 1)
    ∧ (((((((((w.attach A).setState 1).notify).1.detach A).setState 2).notify).1.observerState A)) = 1) := by
  have h1 : ((((w.attach A).setState 1).notify).1.observerState A) = 1 := by
    rw [notify_observerState]
    simp [ObsWorld.attach, ObsWorld.setState]
  refine ⟨h1, ?_⟩
  rw [notify_observerState]
  have hnomem : A ∉ (((((((w.attach A).setState 1).notify).1.detach A).setState 2)).subject.observers) := by
    simp [ObsWorld.detach, ObsWorld.setState, List.mem_filter]
  rw [if_neg hnomem]
  exact h1

/-- C5: attaching the same subscriber A twice (with no intervening
detach) and then calling notify() once invokes A's update exactly
twice. -/
theorem notify_after_double_attach (w : ObsWorld) (A : Nat)
    (h : A ∉ w.subject.observers) :
    (((w.attach A).attach A).notify).2.count A = 2 := by
  rw [notify_log]
  simp [ObsWorld.attach, List.count_append]
  exact List.count_eq_zero.mpr h

theorem notify_after_double_attach_witness :
    ((((⟨⟨0, []⟩, fun _ => 0⟩ : ObsWorld).attach 7).attach 7).notify).2.count 7 = 2 :=
  notify_after_double_attach ⟨⟨0, []⟩, fun _ => 0⟩ 7 (by simp)

/-- C6: detach(S) removes every entry of the notification list equal to
S (duplicates included), leaves the multiplicity of every other entry
unchanged, and is a no-op on the list when S is absent. -/
theorem detach_spec (w : ObsWorld) (S : Nat) :
    ((w.detach S).subject.observers.count S = 0)
    ∧ (∀ x : Nat, x ≠ S → (w.detach S).subject.observers.count x
        = w.subject.observers.count x)
    ∧ (S ∉ w.subject.observers →
        (w.detach S).subject.observers = w.subject.observers) := by
  refine ⟨?_, ?_, ?_⟩
  · simp [ObsWorld.detach, List.count_eq_zero, List.mem_filter]
  · intro x hx
    simp only [ObsWorld.detach]
    exact List.count_filter (by simp [hx])
  · intro hS
    simp only [ObsWorld.detach]
    rw [List.filter_eq_self]
    intro a ha
    simp only [ne_eq, decide_eq_true_eq]
    exact fun hEq => hS (hEq ▸ ha)

theorem detach_spec_witness :
    ((⟨⟨0, [3, 4, 3]⟩, fun _ => 0⟩ : ObsWorld).detach 3).subject.observers.count 3 = 0
    ∧ ((⟨⟨0, [3, 4, 3]⟩, fun _ => 0⟩ : ObsWorld).detach 3).subject.observers.count 4
        = (⟨⟨0, [3, 4, 3]⟩, fun _ => 0⟩ : ObsWorld).subject.observers.count 4
    ∧ ((⟨⟨0, [9]⟩, fun _ => 0⟩ : ObsWorld).detach 3).subject.observers
        = (⟨⟨0, [9]⟩, fun _ => 0⟩ : ObsWorld).subject.observers :=
  ⟨(detach_spec ⟨⟨0, [3, 4, 3]⟩, fun _ => 0⟩ 3).1,
   (detach_spec ⟨⟨0, [3, 4, 3]⟩, fun _ => 0⟩ 3).2.1 4 (by decide),
   (detach_spec ⟨⟨0, [9]⟩, fun _ => 0⟩ 3).2.2 (by decide)⟩

/-- C10: when the dynamic cast of the subject fails (the subject is not
a ConcreteSubject), update leaves the observer's mirrored state
unchanged and prints no trace line; the mirrored state is overwritten
exactly when the subject is a ConcreteSubject. -/
theorem update_failed_cast (st : Int) :
    ConcreteObserver.update st SubjectRef.other = (st, [])
    ∧ ∀ s : ConcreteSubject,
        (ConcreteObserver.update st (SubjectRef.concrete s)).1 = s.state :=
  ⟨rfl, fun _ => rfl⟩

/-- C7: the zoo [Lion "Simba", Tiger "Shere Khan"] fed by the
FeedingVisitor prints, between the start and end markers, the Lion
handler's line for "Simba" then the Tiger handler's line for
"Shere Khan"; in general accept visits every animal in insertion order
and dispatch selects the handler of the animal's concrete kind. -/
theorem zoo_accept_spec :
    (((Zoo.new.addAnimal (Animal.lion ⟨"Simba"⟩)).addAnimal
        (Animal.tiger ⟨"Shere Khan"⟩)).accept FeedingVisitor
      = ["---START---", "Feeding to Lion: Simba",
         "Feeding to Tiger: Shere Khan", "----END----"])
    ∧ (∀ (z : Zoo) (v : AnimalVisitor),
        z.accept v = "---START---" ::
          (z.animals.map (fun a => Animal.accept a v) ++ ["----END----"]))
    ∧ (∀ (l : Lion) (v : AnimalVisitor), (Animal.lion l).accept v = v.visitLion l)
    ∧ (∀ (t : Tiger) (v : AnimalVisitor), (Animal.tiger t).accept v = v.visitTiger t) :=
  ⟨rfl, fun _ _ => rfl, fun _ _ => rfl, fun _ _ => rfl⟩
